import Mathlib

/-!
# Verification of the SAT-graph training / CNF-encoding driver

A shallow embedding of `bigg/experiments/sat_graphs/main.py` together with
proofs about it.  The embedded pieces are:

* `load_graphs` (lines 37-53): reading a stream of pickled graph records
  until the first read failure, pairing them with a stats list, and
  registering each graph with the tree-index builder;
* `LCG_to_sat` (lines 56-77): the literal-clause-graph → DIMACS CNF encoder;
* `get_ordered_edges` (lines 79-86): the edge canonicalizer;
* the training loop of the `__main__` block (lines 138-177): batch
  sampling, the whole-batch / chunked dispatch, loss computation, and the
  gradient-accumulation schedule;
* the evaluation loop (lines 121-134): the precision / recall computation.

The neural model (`RecurTreeGen`) and the chunked primitive
(`sqrtn_forward_backward`) are external collaborators; they are modelled as
an opaque oracle producing rational log-likelihood values, and the driver
code is embedded as functions that both record the calls they make to the
oracle (as a trace) and combine the returned values exactly as the Python
does.  Python integers are `Int`, counts are `Nat`, and real-valued
quantities are `ℚ`.
-/

/-- A literal-clause graph as the CNF encoder sees it: `nodes` is the list
returned by `graph.nodes()` and `adj n` the list returned by
`graph.neighbors(n)` (both in the graph's insertion order).  Node labels
are Python integers. -/
structure LCGGraph where
  nodes : List Int
  adj : Int → List Int

/-- One literal of a clause line (main.py lines 66-70): a node index
`lit < num_var` is a positive literal, emitted as `lit+1` followed by a
space; otherwise the code asserts `lit < 2*num_var` (modelled as an
`IndexOutOfRangeError`) and emits `-(lit-num_var+1)`. -/
def encodeLit (num_var lit : Int) : Except String String :=
  if lit < num_var then Except.ok (toString (lit + 1) ++ " ")
  else if lit < 2 * num_var then Except.ok (toString (-(lit - num_var + 1)) ++ " ")
  else Except.error "IndexOutOfRangeError"

/-- The clause string built by the inner loop of `LCG_to_sat`
(main.py lines 64-71): the literal pieces in neighbor-list order followed
by the terminating `0`. -/
def clauseBody (num_var : Int) : List Int → Except String String
  | [] => Except.ok "0"
  | lit :: rest =>
    match encodeLit num_var lit with
    | Except.error e => Except.error e
    | Except.ok s =>
      match clauseBody num_var rest with
      | Except.error e => Except.error e
      | Except.ok r => Except.ok (s ++ r)

/-- The clause lines accumulated by the outer loop of `LCG_to_sat`
(main.py lines 58-72): every node `≥ num_var * 2` is a clause node; clause
nodes with an empty neighbor list are skipped (`continue`), every other
clause node contributes one clause line. -/
def clausesOf (num_var : Int) (adj : Int → List Int) : List Int → Except String (List String)
  | [] => Except.ok []
  | node :: rest =>
    if num_var * 2 ≤ node then
      if adj node = [] then clausesOf num_var adj rest
      else
        match clauseBody num_var (adj node) with
        | Except.error e => Except.error e
        | Except.ok c =>
          match clausesOf num_var adj rest with
          | Except.error e => Except.error e
          | Except.ok cs => Except.ok (c :: cs)
    else clausesOf num_var adj rest

/-- The file written by `LCG_to_sat` (main.py lines 56-77), as its list of
lines: the fixed comment line, the `p cnf <num_var> <len(clauses)>` header,
then the clause lines. -/
def LCG_to_sat (graph : LCGGraph) (num_var : Int) : Except String (List String) :=
  match clausesOf num_var graph.adj graph.nodes with
  | Except.error e => Except.error e
  | Except.ok clauses =>
    Except.ok ("c generated by G2SAT lcg" ::
      ("p cnf " ++ toString num_var ++ " " ++ toString clauses.length) :: clauses)

/-- The key relation of the sort in `get_ordered_edges`:
`true_edges.sort(key=lambda x: x[0])` compares first coordinates only. -/
def edgeKeyLe (a b : Int × Int) : Prop := a.1 ≤ b.1

instance : DecidableRel edgeKeyLe := fun a b => Int.decLe a.1 b.1

instance : IsTrans (Int × Int) edgeKeyLe := ⟨fun _ _ _ h h' => le_trans h h'⟩

instance : IsTotal (Int × Int) edgeKeyLe := ⟨fun a b => le_total a.1 b.1⟩

/-- The edge canonicalizer `get_ordered_edges` (main.py lines 79-86): each
edge has its endpoints swapped into ascending order, the `offset` is
subtracted from the second coordinate, and the list is sorted by the first
coordinate.  Python `list.sort` with key `x[0]` is a stable sort by that
key; it is modelled by a stable insertion sort keyed the same way (all
stable sorts of a list by the same key agree). -/
def get_ordered_edges (edges : List (Int × Int)) (offset : Int) : List (Int × Int) :=
  let true_edges := edges.map fun e =>
    let e := if e.1 > e.2 then (e.2, e.1) else e
    (e.1, e.2 - offset)
  List.insertionSort edgeKeyLe true_edges

/-- The graph-record read loop of `load_graphs` (main.py lines 38-45).
Each record of the pickle stream either decodes to a value (`Except.ok`)
or raises (`Except.error`); the bare `except: break` stops at the first
raising record and keeps the prefix read so far. -/
def readRecords {α : Type} : List (Except String α) → List α
  | [] => []
  | Except.ok g :: rest => g :: readRecords rest
  | Except.error _ :: _ => []

/-- `load_graphs` (main.py lines 37-53): read the graph stream, unpickle
the stats list, `assert len(graphs) == len(stats)` (modelled as a
`CountMismatchError`), then register every graph with
`TreeLib.InsertGraph(g, bipart_stats=(n, m))`.  The result records the
`InsertGraph` calls made (in order) alongside the returned pair. -/
def load_graphs {α : Type} (stream : List (Except String α)) (stats : List (Int × Int)) :
    Except String (List (α × Int × Int) × List α × List (Int × Int)) :=
  let graphs := readRecords stream
  if graphs.length = stats.length then
    Except.ok (graphs.zip stats, graphs, stats)
  else Except.error "CountMismatchError"

/-- The opaque external collaborators of the training loop: the model's
whole-batch primitive `model.forward_train(batch_indices, list_col_ranges)`
and the chunked primitive `sqrtn_forward_backward(model, graph_ids,
list_node_starts, num_nodes, blksize, loss_scale, list_col_ranges)`.  Only
the returned log-likelihood value matters to the driver; the side effects
on gradient buffers stay inside the oracle. -/
structure ModelOracle where
  forward_train : List Nat → List (Int × Int) → ℚ
  sqrtn_forward_backward : List Nat → List Nat → Int → Int → ℚ → List (Int × Int) → ℚ

/-- One externally visible call made by a training step (main.py lines
148-161): the whole-batch primitive, the single `loss.backward()` that
follows it, or one chunked `sqrtn_forward_backward` invocation. -/
inductive TrainCall where
  | forwardTrain (batch_indices : List Nat) (list_col_ranges : List (Int × Int))
  | backward (loss : ℚ)
  | sqrtnFB (graph_ids : List Nat) (list_node_starts : List Nat) (num_nodes : Int)
      (blksize : Int) (loss_scale : ℚ) (list_col_ranges : List (Int × Int))

/-- `num_nodes = sum([len(train_graphs[i]) for i in batch_indices])`
(main.py line 148); `graphLens` lists each training graph's node count. -/
def batch_num_nodes (graphLens : List Nat) (batch_indices : List Nat) : Nat :=
  (batch_indices.map fun i => graphLens.getD i 0).sum

/-- `[(0, stats[i][1]) for i in batch_indices]` (main.py line 150). -/
def batch_col_ranges (stats : List (Int × Int)) (batch_indices : List Nat) : List (Int × Int) :=
  batch_indices.map fun i => ((0 : Int), (stats.getD i (0, 0)).2)

/-- One training step's dispatch (main.py lines 148-161): with
`num_nodes` the batch's total node count, the whole-batch path runs when
`blksize < 0 or num_nodes <= blksize` — a single `forward_train` over the
batch, `loss = -ll / num_nodes`, one `backward` — and otherwise the
chunked path runs `sqrtn_forward_backward` once per graph `i` of the batch
with `graph_ids=[i]`, `list_node_starts=[0]`, `num_nodes=stats[i][0]`,
`loss_scale=1.0/len(train_graphs[i])` and `list_col_ranges=[(0,
stats[i][1])]`, sums the returned log-likelihoods and sets
`loss = -ll / num_nodes`.  The result is the list of external calls made,
paired with the step's loss value. -/
def train_step (M : ModelOracle) (graphLens : List Nat) (stats : List (Int × Int))
    (blksize : Int) (batch_indices : List Nat) : List TrainCall × ℚ :=
  let num_nodes := batch_num_nodes graphLens batch_indices
  if blksize < 0 ∨ (num_nodes : Int) ≤ blksize then
    let ll := M.forward_train batch_indices (batch_col_ranges stats batch_indices)
    let loss := -ll / (num_nodes : ℚ)
    ([TrainCall.forwardTrain batch_indices (batch_col_ranges stats batch_indices),
      TrainCall.backward loss], loss)
  else
    let calls := batch_indices.map fun i =>
      TrainCall.sqrtnFB [i] [0] (stats.getD i (0, 0)).1 blksize
        ((1 : ℚ) / (graphLens.getD i 0 : ℚ)) [((0 : Int), (stats.getD i (0, 0)).2)]
    let ll := (batch_indices.map fun i =>
      M.sqrtn_forward_backward [i] [0] (stats.getD i (0, 0)).1 blksize
        ((1 : ℚ) / (graphLens.getD i 0 : ℚ)) [((0 : Int), (stats.getD i (0, 0)).2)]).sum
    (calls, -ll / (num_nodes : ℚ))

/-- One externally visible optimizer-side event of the training loop
(main.py lines 143-173): the `optimizer.zero_grad()` before the epoch's
step loop, the per-step gradient accumulation (the backward pass of step
`idx` adding into the gradient buffers), gradient clipping with its
`max_norm`, an `optimizer.step()`, or the `optimizer.zero_grad()` that
follows it. -/
inductive OptEvent where
  | zeroGradInit
  | gradAccum (idx : Nat)
  | clipGrad (idx : Nat) (max_norm : ℚ)
  | optimStep (idx : Nat)
  | zeroGrad (idx : Nat)
  deriving DecidableEq

/-- The optimizer-side events of step `idx` (main.py lines 144-173): every
step backpropagates into the accumulated gradients; then, only when
`(idx + 1) % accum_grad == 0`, the gradients are clipped (only if
`grad_clip > 0`), the optimizer steps, and the gradients are reset. -/
def step_opt_events (accum_grad : Nat) (grad_clip : ℚ) (idx : Nat) : List OptEvent :=
  OptEvent.gradAccum idx ::
    (if (idx + 1) % accum_grad = 0 then
      (if 0 < grad_clip then [OptEvent.clipGrad idx grad_clip] else []) ++
        [OptEvent.optimStep idx, OptEvent.zeroGrad idx]
    else [])

/-- The optimizer-side event trace of one epoch (main.py lines 143-173):
`optimizer.zero_grad()` once, then the events of steps
`idx = 0, …, epoch_save - 1` in order. -/
def epoch_opt_trace (epoch_save accum_grad : Nat) (grad_clip : ℚ) : List OptEvent :=
  OptEvent.zeroGradInit :: (List.range epoch_save).flatMap (step_opt_events accum_grad grad_clip)

/-- The index pool right after the `random.shuffle(indices)` of step `t`
(main.py lines 139 and 145): the pool starts as `list(range(N))` and each
step shuffles it in place; `shuffle t` is the (arbitrary) permutation the
shuffler applies at step `t`. -/
def pool_at (shuffle : Nat → List Nat → List Nat) (N : Nat) : Nat → List Nat
  | 0 => shuffle 0 (List.range N)
  | t + 1 => shuffle (t + 1) (pool_at shuffle N t)

/-- The batch of step `t`: `indices[:batch_size]` of the freshly shuffled
pool (main.py line 146). -/
def batch_at (shuffle : Nat → List Nat → List Nat) (N batch_size t : Nat) : List Nat :=
  (pool_at shuffle N t).take batch_size

/-- The per-graph evaluation metrics (main.py lines 126-129): the
generated edges are shifted by `pred_edges = [(e[0], e[1] + stat[0]) for e
in pred_edges]`, the ground truth is `get_ordered_edges(g, offset=0)`,
`common` is the set intersection, and the reported pair is
`(len(common) / len(pred_edges), len(common) / len(true_edges))` — both
denominators are list lengths. -/
def eval_metrics (pred_edges : List (Int × Int)) (g_edges : List (Int × Int))
    (n_left : Int) : ℚ × ℚ :=
  let pred := pred_edges.map fun e => (e.1, e.2 + n_left)
  let true_edges := get_ordered_edges g_edges 0
  let common := pred.toFinset ∩ true_edges.toFinset
  ((common.card : ℚ) / (pred.length : ℚ), (common.card : ℚ) / (true_edges.length : ℚ))

/-- Concrete graph for the `num_var = 2` scenario: literal nodes `0` and
`3`, one clause node `4` adjacent to both (edges inserted as `(0,4)` then
`(3,4)`, so `graph.neighbors(4)` lists `0` before `3`). -/
def g2Example : LCGGraph := ⟨[0, 3, 4], fun n => if n = 4 then [0, 3] else [4]⟩

/-- Concrete graph with one zero-neighbor clause node (`2`) and one
one-neighbor clause node (`3`), for `num_var = 1`. -/
def g4Example : LCGGraph := ⟨[2, 3], fun n => if n = 3 then [0] else []⟩

/-- Concrete graph whose clause node `4` has a neighbor `5`, which for
`num_var = 2` is a literal index at or above `2 * num_var`. -/
def gBadLit : LCGGraph := ⟨[4], fun n => if n = 4 then [5] else []⟩

/-- Concrete graph whose clause node `4` has the in-range neighbors
`0` and `3` for `num_var = 2`. -/
def gGoodLit : LCGGraph := ⟨[4], fun n => if n = 4 then [0, 3] else []⟩

/-- Concrete graph whose clause node `4` has the negative neighbor `-1`,
outside `[0, 2 * num_var)` for `num_var = 2`. -/
def gNegLit : LCGGraph := ⟨[4], fun n => if n = 4 then [-1] else []⟩

/-- A concrete oracle whose primitives always report log-likelihood `1`. -/
def oracle0 : ModelOracle := ⟨fun _ _ => 1, fun _ _ _ _ _ _ => 1⟩

/-! ## Helper lemmas -/

theorem clausesOf_skip (num_var : Int) (adj : Int → List Int) (pre l : List Int)
    (hpre : ∀ n ∈ pre, n < num_var * 2) :
    clausesOf num_var adj (pre ++ l) = clausesOf num_var adj l := by
  induction pre with
  | nil => rfl
  | cons a pre ih =>
    have ha : ¬ num_var * 2 ≤ a := not_le.mpr (hpre a (by simp))
    have hstep : clausesOf num_var adj (a :: (pre ++ l)) = clausesOf num_var adj (pre ++ l) := by
      simp only [clausesOf, if_neg ha]
    rw [List.cons_append, hstep, ih fun n hn => hpre n (by simp [hn])]

theorem clausesOf_count (num_var : Int) (adj : Int → List Int) :
    ∀ (l : List Int) (body : List String), clausesOf num_var adj l = Except.ok body →
      body.length = l.countP fun node => decide (num_var * 2 ≤ node) && !(adj node).isEmpty := by
  intro l
  induction l with
  | nil =>
    intro body h
    simp only [clausesOf, Except.ok.injEq] at h
    simp [← h]
  | cons a l ih =>
    intro body h
    by_cases hc : num_var * 2 ≤ a
    · by_cases hemp : adj a = []
      · simp only [clausesOf, if_pos hc, if_neg (by simp [hemp] : ¬ adj a ≠ [])] at h
        rw [if_pos hemp] at h
        rw [ih body h, List.countP_cons_of_neg]
        simp [hemp]
      · simp only [clausesOf, if_pos hc, if_neg hemp] at h
        cases hcb : clauseBody num_var (adj a) with
        | error e => rw [hcb] at h; cases h
        | ok c =>
          rw [hcb] at h
          cases hcs : clausesOf num_var adj l with
          | error e => rw [hcs] at h; cases h
          | ok cs =>
            rw [hcs] at h
            cases h
            rw [List.length_cons, ih cs hcs, List.countP_cons_of_pos]
            simp [hc, hemp]
    · simp only [clausesOf, if_neg hc] at h
      rw [ih body h, List.countP_cons_of_neg]
      simp [hc]

theorem encodeLit_big_error (num_var lit : Int) (hnv : 0 ≤ num_var)
    (h : 2 * num_var ≤ lit) :
    encodeLit num_var lit = Except.error "IndexOutOfRangeError" := by
  unfold encodeLit
  rw [if_neg (by omega), if_neg (by omega)]

theorem clauseBody_big_error (num_var : Int) (hnv : 0 ≤ num_var) :
    ∀ (l : List Int) (lit : Int), lit ∈ l → 2 * num_var ≤ lit →
      ∃ e, clauseBody num_var l = Except.error e := by
  intro l
  induction l with
  | nil => intro lit h; simp at h
  | cons a l ih =>
    intro lit hmem hbig
    rcases List.mem_cons.mp hmem with h | h
    · subst h
      exact ⟨"IndexOutOfRangeError",
        by simp only [clauseBody, encodeLit_big_error num_var lit hnv hbig]⟩
    · obtain ⟨e, he⟩ := ih lit h hbig
      cases henc : encodeLit num_var a with
      | error e2 => exact ⟨e2, by simp only [clauseBody, henc]⟩
      | ok s => exact ⟨e, by simp only [clauseBody, henc, he]⟩

theorem clausesOf_big_error (num_var : Int) (adj : Int → List Int) (hnv : 0 ≤ num_var) :
    ∀ (l : List Int) (node lit : Int), node ∈ l → num_var * 2 ≤ node →
      lit ∈ adj node → 2 * num_var ≤ lit →
      ∃ e, clausesOf num_var adj l = Except.error e := by
  intro l
  induction l with
  | nil => intro node lit h; simp at h
  | cons a l ih =>
    intro node lit hmem hnode hadj hbig
    rcases List.mem_cons.mp hmem with h | h
    · subst h
      have hne : adj node ≠ [] := by
        intro hh
        rw [hh] at hadj
        simp at hadj
      obtain ⟨e, he⟩ := clauseBody_big_error num_var hnv (adj node) lit hadj hbig
      exact ⟨e, by simp [clausesOf, hnode, hne, he]⟩
    · obtain ⟨e, he⟩ := ih node lit h hnode hadj hbig
      by_cases hca : num_var * 2 ≤ a
      · by_cases hemp : adj a = []
        · exact ⟨e, by simp [clausesOf, hca, hemp, he]⟩
        · cases hcb : clauseBody num_var (adj a) with
          | error e2 => exact ⟨e2, by simp [clausesOf, hca, hemp, hcb]⟩
          | ok c => exact ⟨e, by simp [clausesOf, hca, hemp, hcb, he]⟩
      · exact ⟨e, by simp [clausesOf, hca, he]⟩

theorem encodeLit_small_ok (num_var lit : Int) (h : lit < 2 * num_var) :
    ∃ s, encodeLit num_var lit = Except.ok s := by
  unfold encodeLit
  by_cases h1 : lit < num_var
  · exact ⟨_, by rw [if_pos h1]⟩
  · exact ⟨_, by rw [if_neg h1, if_pos h]⟩

theorem clauseBody_all_ok (num_var : Int) :
    ∀ l : List Int, (∀ lit ∈ l, lit < 2 * num_var) →
      ∃ s, clauseBody num_var l = Except.ok s := by
  intro l
  induction l with
  | nil => intro _; exact ⟨"0", rfl⟩
  | cons a l ih =>
    intro h
    obtain ⟨s, hs⟩ := encodeLit_small_ok num_var a (h a (by simp))
    obtain ⟨r, hr⟩ := ih fun lit hl => h lit (by simp [hl])
    exact ⟨s ++ r, by simp only [clauseBody, hs, hr]⟩

theorem clausesOf_all_ok (num_var : Int) (adj : Int → List Int) :
    ∀ l : List Int, (∀ node ∈ l, num_var * 2 ≤ node → ∀ lit ∈ adj node, lit < 2 * num_var) →
      ∃ cs, clausesOf num_var adj l = Except.ok cs := by
  intro l
  induction l with
  | nil => intro _; exact ⟨[], rfl⟩
  | cons a l ih =>
    intro h
    obtain ⟨cs, hcs⟩ := ih fun node hn hge => h node (by simp [hn]) hge
    by_cases hca : num_var * 2 ≤ a
    · by_cases hemp : adj a = []
      · exact ⟨cs, by simp [clausesOf, hca, hemp, hcs]⟩
      · obtain ⟨c, hc⟩ := clauseBody_all_ok num_var (adj a) (h a (by simp) hca)
        exact ⟨c :: cs, by simp [clausesOf, hca, hemp, hc, hcs]⟩
    · exact ⟨cs, by simp [clausesOf, hca, hcs]⟩

/-! ## Claim theorems -/

/-- C2: for a graph with `num_var = 2` whose only clause node (the only
node with index `≥ 4`) has the neighbor list `[0, 3]`, `LCG_to_sat` writes
the comment line, the header `p cnf 2 1`, and the single clause body line
`1 -2 0` (literal `0 < num_var` emitted as `1`, literal `3` emitted as
`-(3 - 2 + 1) = -2`, clause terminated by `0`). -/
theorem lcg_single_clause (g : LCGGraph) (pre post : List Int) (c : Int)
    (hnodes : g.nodes = pre ++ c :: post)
    (hc : 4 ≤ c)
    (hpre : ∀ n ∈ pre, n < 4) (hpost : ∀ n ∈ post, n < 4)
    (hadj : g.adj c = [0, 3]) :
    LCG_to_sat g 2 = Except.ok ["c generated by G2SAT lcg", "p cnf 2 1", "1 -2 0"] := by
  have hclauses : clausesOf 2 g.adj g.nodes = Except.ok ["1 -2 0"] := by
    rw [hnodes, clausesOf_skip 2 g.adj pre _ fun n hn => by have := hpre n hn; omega]
    have hbody : clauseBody 2 (g.adj c) = Except.ok "1 -2 0" := by rw [hadj]; rfl
    have hne : g.adj c ≠ [] := by rw [hadj]; simp
    have hrest : clausesOf 2 g.adj post = Except.ok [] := by
      have := clausesOf_skip 2 g.adj post [] fun n hn => by have := hpost n hn; omega
      simpa using this
    simp [clausesOf, hne, hbody, hrest, hc]
  simp only [LCG_to_sat, hclauses]
  rfl

/-- C2 witness: the scenario instantiated on the concrete graph
`g2Example` (nodes `[0, 3, 4]`, clause node `4` adjacent to `0` and `3`). -/
theorem lcg_single_clause_witness :
    LCG_to_sat g2Example 2 = Except.ok ["c generated by G2SAT lcg", "p cnf 2 1", "1 -2 0"] :=
  lcg_single_clause g2Example [0, 3] [] 4 rfl (by decide) (by decide) (by decide) rfl

/-- C3: `get_ordered_edges g offset` returns one pair per edge — the list
is a permutation of the edges mapped to `(min(a,b), max(a,b) - offset)` —
and is sorted ascending in its first coordinate. -/
theorem get_ordered_edges_spec (edges : List (Int × Int)) (offset : Int) :
    (get_ordered_edges edges offset).Perm
      (edges.map fun e => (min e.1 e.2, max e.1 e.2 - offset))
    ∧ (get_ordered_edges edges offset).Pairwise fun a b => a.1 ≤ b.1 := by
  have hmap : (edges.map fun e =>
      let e := if e.1 > e.2 then (e.2, e.1) else e
      (e.1, e.2 - offset)) = edges.map fun e => (min e.1 e.2, max e.1 e.2 - offset) := by
    apply List.map_congr_left
    intro a _
    by_cases h : a.1 > a.2
    · simp only [if_pos h]
      rw [min_eq_right (le_of_lt h), max_eq_left (le_of_lt h)]
    · simp only [if_neg h]
      rw [min_eq_left (not_lt.mp h), max_eq_right (not_lt.mp h)]
  constructor
  · rw [← hmap]
    exact List.perm_insertionSort edgeKeyLe _
  · exact List.sorted_insertionSort edgeKeyLe _

/-- C4: whenever the clause collection succeeds, a clause node with zero
neighbors contributes no line — the number of emitted clause lines is
exactly the number of clause nodes with a nonempty neighbor list — and the
header written by `LCG_to_sat` announces exactly that count. -/
theorem cnf_header_counts_emitted (g : LCGGraph) (num_var : Int) (body : List String)
    (h : clausesOf num_var g.adj g.nodes = Except.ok body) :
    body.length =
      (g.nodes.countP fun node => decide (num_var * 2 ≤ node) && !(g.adj node).isEmpty)
    ∧ LCG_to_sat g num_var = Except.ok ("c generated by G2SAT lcg" ::
        ("p cnf " ++ toString num_var ++ " " ++ toString body.length) :: body) := by
  refine ⟨clausesOf_count num_var g.adj g.nodes body h, ?_⟩
  simp only [LCG_to_sat, h]

/-- C4 witness: on `g4Example` with `num_var = 1`, the zero-neighbor
clause node `2` is skipped, the one-neighbor clause node `3` is emitted,
and the header says `p cnf 1 1`. -/
theorem cnf_header_counts_emitted_witness :
    (["1 0"] : List String).length =
      (g4Example.nodes.countP fun node =>
        decide ((1 : Int) * 2 ≤ node) && !(g4Example.adj node).isEmpty)
    ∧ LCG_to_sat g4Example 1 = Except.ok ("c generated by G2SAT lcg" ::
        ("p cnf " ++ toString (1 : Int) ++ " " ++ toString (["1 0"] : List String).length) ::
          ["1 0"]) :=
  cnf_header_counts_emitted g4Example 1 ["1 0"] rfl

/-- C5 counterexample: the neighbor `-1` of clause node `4` lies outside
`[0, 2 * num_var)` for `num_var = 2`, yet `LCG_to_sat` raises no
`IndexOutOfRangeError`: the negative index is silently coerced into the
positive-literal branch and emitted as `-1 + 1 = 0`, so encoding succeeds
with the corrupt clause line `0 0`. -/
theorem negative_literal_accepted :
    ((-1 : Int) < 0 ∨ 2 * 2 ≤ (-1 : Int))
    ∧ LCG_to_sat gNegLit 2 = Except.ok ["c generated by G2SAT lcg", "p cnf 2 1", "0 0"] :=
  ⟨Or.inl (by decide), rfl⟩

/-- C5 (amended): a clause-node neighbor `≥ 2 * num_var` always causes a
fatal `IndexOutOfRangeError` (for the actual nonnegative variable counts),
and conversely if every clause-node neighbor is `< 2 * num_var` — in
particular if every one lies in `[0, 2 * num_var)` — encoding never
fails.  Only the upper bound is checked: negative indices pass through
the positive-literal branch unrejected. -/
theorem literal_bound_check (g : LCGGraph) (num_var : Int) :
    (0 ≤ num_var → ∀ node ∈ g.nodes, num_var * 2 ≤ node →
      ∀ lit ∈ g.adj node, 2 * num_var ≤ lit → (LCG_to_sat g num_var).isOk = false)
    ∧ ((∀ node ∈ g.nodes, num_var * 2 ≤ node → ∀ lit ∈ g.adj node, lit < 2 * num_var) →
      ∃ lines, LCG_to_sat g num_var = Except.ok lines) := by
  constructor
  · intro hnv node hmem hnode lit hadj hbig
    obtain ⟨e, he⟩ := clausesOf_big_error num_var g.adj hnv g.nodes node lit hmem hnode hadj hbig
    simp [LCG_to_sat, he, Except.isOk, Except.toBool]
  · intro h
    obtain ⟨cs, hcs⟩ := clausesOf_all_ok num_var g.adj g.nodes h
    exact ⟨"c generated by G2SAT lcg" ::
      ("p cnf " ++ toString num_var ++ " " ++ toString cs.length) :: cs,
      by simp only [LCG_to_sat, hcs]⟩

/-- C5 witness: on `gBadLit` (clause node `4` with neighbor `5 ≥ 2 * 2`)
encoding fails, while on `gGoodLit` (neighbors `0` and `3`, both in
range) it succeeds. -/
theorem literal_bound_check_witness :
    (LCG_to_sat gBadLit 2).isOk = false
    ∧ ∃ lines, LCG_to_sat gGoodLit 2 = Except.ok lines :=
  ⟨(literal_bound_check gBadLit 2).1 (by decide) 4 (by decide) (by decide) 5 (by decide)
      (by decide),
   (literal_bound_check gGoodLit 2).2 (by decide)⟩

/-- C6: `load_graphs` fails with `CountMismatchError` exactly when the
number of graph records read differs from the number of stats records;
on success it returns `(graphs, stats)` of equal length, having issued
exactly one `TreeLib.InsertGraph` registration per loaded graph, paired
with that graph's `(n, m)` stats, before returning. -/
theorem load_graphs_spec {α : Type} (stream : List (Except String α))
    (stats : List (Int × Int)) :
    (load_graphs stream stats = Except.error "CountMismatchError" ↔
      (readRecords stream).length ≠ stats.length)
    ∧ ∀ regs graphs stats2,
        load_graphs stream stats = Except.ok (regs, graphs, stats2) →
          graphs.length = stats2.length ∧ regs = graphs.zip stats2 ∧
          graphs = readRecords stream ∧ stats2 = stats := by
  by_cases h : (readRecords stream).length = stats.length
  · refine ⟨by simp [load_graphs, h], ?_⟩
    intro regs graphs stats2 heq
    simp only [load_graphs, if_pos h, Except.ok.injEq, Prod.mk.injEq] at heq
    obtain ⟨h1, h2, h3⟩ := heq
    subst h2
    subst h3
    exact ⟨h, h1.symm, rfl, rfl⟩
  · refine ⟨by simp [load_graphs, h], ?_⟩
    intro regs graphs stats2 heq
    simp [load_graphs, if_neg h] at heq

/-- C6 witness: a two-record stream with matching stats loads, registers
`(graph, stats)` pairs in order, and returns lists of equal length. -/
theorem load_graphs_spec_witness :
    ([1, 2] : List Nat).length = ([((5 : Int), (3 : Int)), (7, 4)]).length
    ∧ ([(1, (5 : Int), (3 : Int)), (2, 7, 4)] : List (Nat × Int × Int)) =
        ([1, 2].zip [((5 : Int), (3 : Int)), (7, 4)])
    ∧ ([1, 2] : List Nat) = readRecords [Except.ok 1, Except.ok 2]
    ∧ ([((5 : Int), (3 : Int)), (7, 4)]) = [((5 : Int), (3 : Int)), (7, 4)] :=
  (load_graphs_spec [Except.ok 1, Except.ok 2] [((5 : Int), (3 : Int)), (7, 4)]).2
    [(1, (5 : Int), (3 : Int)), (2, 7, 4)] [1, 2] [((5 : Int), (3 : Int)), (7, 4)] rfl

/-- C10: the record-read loop treats any raising record — not only clean
end-of-file — as end-of-stream: for a stream carrying a failure after
`pre` good records, it returns exactly the prefix `pre` (dropping whatever
follows the failure), and for an all-good stream it returns every record;
in neither case does a read error escape to the caller. -/
theorem readRecords_error_is_eos {α : Type} (pre : List α) (e : String)
    (rest : List (Except String α)) :
    readRecords (pre.map Except.ok ++ Except.error e :: rest) = pre
    ∧ readRecords (pre.map Except.ok) = pre := by
  induction pre with
  | nil => exact ⟨rfl, rfl⟩
  | cons a pre ih =>
    refine ⟨?_, ?_⟩
    · simpa [readRecords] using ih.1
    · simpa [readRecords] using ih.2

/-- C1: the training-step dispatch.  When `blksize < 0` or the batch's
total node count does not exceed `blksize`, the step is exactly one
whole-batch `forward_train` over the batch followed by a single backward
of `loss = -ll / num_nodes`; otherwise it is exactly one
`sqrtn_forward_backward` call per graph of the batch (with
`loss_scale = 1 / len(graph)` and that graph's column range), the returned
log-likelihoods are summed, and the loss is the negated sum divided by the
batch's total node count. -/
theorem train_step_dispatch (M : ModelOracle) (graphLens : List Nat)
    (stats : List (Int × Int)) (blksize : Int) (batch_indices : List Nat) :
    ((blksize < 0 ∨ (batch_num_nodes graphLens batch_indices : Int) ≤ blksize) →
      train_step M graphLens stats blksize batch_indices =
        ([TrainCall.forwardTrain batch_indices (batch_col_ranges stats batch_indices),
          TrainCall.backward
            (-(M.forward_train batch_indices (batch_col_ranges stats batch_indices)) /
              (batch_num_nodes graphLens batch_indices : ℚ))],
         -(M.forward_train batch_indices (batch_col_ranges stats batch_indices)) /
           (batch_num_nodes graphLens batch_indices : ℚ)))
    ∧ (¬ (blksize < 0 ∨ (batch_num_nodes graphLens batch_indices : Int) ≤ blksize) →
      train_step M graphLens stats blksize batch_indices =
        (batch_indices.map fun i =>
          TrainCall.sqrtnFB [i] [0] (stats.getD i (0, 0)).1 blksize
            ((1 : ℚ) / (graphLens.getD i 0 : ℚ)) [((0 : Int), (stats.getD i (0, 0)).2)],
         -(batch_indices.map fun i =>
            M.sqrtn_forward_backward [i] [0] (stats.getD i (0, 0)).1 blksize
              ((1 : ℚ) / (graphLens.getD i 0 : ℚ))
              [((0 : Int), (stats.getD i (0, 0)).2)]).sum /
           (batch_num_nodes graphLens batch_indices : ℚ))) := by
  constructor
  · intro h
    simp only [train_step]
    rw [if_pos h]
  · intro h
    simp only [train_step]
    rw [if_neg h]

/-- C1 witness: with the constant oracle, graph lengths `[2, 3]`, stats
`[(2, 5), (3, 7)]` and batch `[0, 1]` (total node count `5`), block size
`-1` takes the whole-batch path and block size `1` takes the chunked
path. -/
theorem train_step_dispatch_witness :
    (train_step oracle0 [2, 3] [((2 : Int), (5 : Int)), (3, 7)] (-1) [0, 1] =
      ([TrainCall.forwardTrain [0, 1]
          (batch_col_ranges [((2 : Int), (5 : Int)), (3, 7)] [0, 1]),
        TrainCall.backward
          (-(oracle0.forward_train [0, 1]
              (batch_col_ranges [((2 : Int), (5 : Int)), (3, 7)] [0, 1])) /
            (batch_num_nodes [2, 3] [0, 1] : ℚ))],
       -(oracle0.forward_train [0, 1]
           (batch_col_ranges [((2 : Int), (5 : Int)), (3, 7)] [0, 1])) /
         (batch_num_nodes [2, 3] [0, 1] : ℚ)))
    ∧ (train_step oracle0 [2, 3] [((2 : Int), (5 : Int)), (3, 7)] 1 [0, 1] =
      ([0, 1].map fun i =>
          TrainCall.sqrtnFB [i] [0] (([((2 : Int), (5 : Int)), (3, 7)]).getD i (0, 0)).1 1
            ((1 : ℚ) / (([2, 3] : List Nat).getD i 0 : ℚ))
            [((0 : Int), (([((2 : Int), (5 : Int)), (3, 7)]).getD i (0, 0)).2)],
       -([0, 1].map fun i =>
            oracle0.sqrtn_forward_backward [i] [0]
              (([((2 : Int), (5 : Int)), (3, 7)]).getD i (0, 0)).1 1
              ((1 : ℚ) / (([2, 3] : List Nat).getD i 0 : ℚ))
              [((0 : Int), (([((2 : Int), (5 : Int)), (3, 7)]).getD i (0, 0)).2)]).sum /
         (batch_num_nodes [2, 3] [0, 1] : ℚ))) :=
  ⟨(train_step_dispatch oracle0 [2, 3] [((2 : Int), (5 : Int)), (3, 7)] (-1) [0, 1]).1
      (Or.inl (by decide)),
   (train_step_dispatch oracle0 [2, 3] [((2 : Int), (5 : Int)), (3, 7)] 1 [0, 1]).2
      (by decide)⟩

theorem gradAccum_mem_events (ag : Nat) (gc : ℚ) (idx j : Nat) :
    OptEvent.gradAccum idx ∈ step_opt_events ag gc j ↔ idx = j := by
  unfold step_opt_events
  by_cases h : (j + 1) % ag = 0
  · by_cases h2 : 0 < gc <;> simp [h, h2]
  · simp [h]

theorem optimStep_mem_events (ag : Nat) (gc : ℚ) (idx j : Nat) :
    OptEvent.optimStep idx ∈ step_opt_events ag gc j ↔ idx = j ∧ (j + 1) % ag = 0 := by
  unfold step_opt_events
  by_cases h : (j + 1) % ag = 0
  · by_cases h2 : 0 < gc <;> simp [h, h2]
  · simp [h]

theorem zeroGrad_mem_events (ag : Nat) (gc : ℚ) (idx j : Nat) :
    OptEvent.zeroGrad idx ∈ step_opt_events ag gc j ↔ idx = j ∧ (j + 1) % ag = 0 := by
  unfold step_opt_events
  by_cases h : (j + 1) % ag = 0
  · by_cases h2 : 0 < gc <;> simp [h, h2]
  · simp [h]

theorem clipGrad_mem_events (ag : Nat) (gc c : ℚ) (idx j : Nat) :
    OptEvent.clipGrad idx c ∈ step_opt_events ag gc j ↔
      idx = j ∧ (j + 1) % ag = 0 ∧ 0 < gc ∧ c = gc := by
  unfold step_opt_events
  by_cases h : (j + 1) % ag = 0
  · by_cases h2 : 0 < gc <;> simp [h, h2]
  · simp [h]

/-- C7: in the epoch's optimizer-event trace, an `optimizer.step()` and the
gradient reset that follows it happen at step `idx` exactly when the
1-based step index `idx + 1` is a multiple of `accum_grad` (and `idx` is a
step of the epoch); gradient clipping happens at exactly those steps and
only when the configured clip norm is positive (with that norm); and every
step of the epoch accumulates its gradients in place. -/
theorem optimizer_schedule (epoch_save accum_grad : Nat) (grad_clip : ℚ) (idx : Nat) (c : ℚ) :
    (OptEvent.optimStep idx ∈ epoch_opt_trace epoch_save accum_grad grad_clip ↔
      idx < epoch_save ∧ accum_grad ∣ (idx + 1))
    ∧ (OptEvent.zeroGrad idx ∈ epoch_opt_trace epoch_save accum_grad grad_clip ↔
      idx < epoch_save ∧ accum_grad ∣ (idx + 1))
    ∧ (OptEvent.clipGrad idx c ∈ epoch_opt_trace epoch_save accum_grad grad_clip ↔
      idx < epoch_save ∧ accum_grad ∣ (idx + 1) ∧ 0 < grad_clip ∧ c = grad_clip)
    ∧ (OptEvent.gradAccum idx ∈ epoch_opt_trace epoch_save accum_grad grad_clip ↔
      idx < epoch_save) := by
  refine ⟨?_, ?_, ?_, ?_⟩
  · simp only [epoch_opt_trace, List.mem_cons, List.mem_flatMap, List.mem_range,
      optimStep_mem_events, Nat.dvd_iff_mod_eq_zero]
    constructor
    · rintro (h | ⟨j, hj, rfl, hm⟩)
      · cases h
      · exact ⟨hj, hm⟩
    · rintro ⟨hj, hm⟩
      exact Or.inr ⟨idx, hj, rfl, hm⟩
  · simp only [epoch_opt_trace, List.mem_cons, List.mem_flatMap, List.mem_range,
      zeroGrad_mem_events, Nat.dvd_iff_mod_eq_zero]
    constructor
    · rintro (h | ⟨j, hj, rfl, hm⟩)
      · cases h
      · exact ⟨hj, hm⟩
    · rintro ⟨hj, hm⟩
      exact Or.inr ⟨idx, hj, rfl, hm⟩
  · simp only [epoch_opt_trace, List.mem_cons, List.mem_flatMap, List.mem_range,
      clipGrad_mem_events, Nat.dvd_iff_mod_eq_zero]
    constructor
    · rintro (h | ⟨j, hj, rfl, hm, hgc, rfl⟩)
      · cases h
      · exact ⟨hj, hm, hgc, rfl⟩
    · rintro ⟨hj, hm, hgc, rfl⟩
      exact Or.inr ⟨idx, hj, rfl, hm, hgc, rfl⟩
  · simp only [epoch_opt_trace, List.mem_cons, List.mem_flatMap, List.mem_range,
      gradAccum_mem_events]
    constructor
    · rintro (h | ⟨j, hj, rfl⟩)
      · cases h
      · exact hj
    · intro hj
      exact Or.inr ⟨idx, hj, rfl⟩

theorem pool_at_perm (shuffle : Nat → List Nat → List Nat) (N : Nat)
    (hshuffle : ∀ s p, (shuffle s p).Perm p) :
    ∀ t, (pool_at shuffle N t).Perm (List.range N) := by
  intro t
  induction t with
  | zero => exact hshuffle 0 (List.range N)
  | succ t ih => exact (hshuffle (t + 1) (pool_at shuffle N t)).trans ih

/-- C9: for any shuffler (any function returning a permutation of the
pool it is given), the batch of every step — the first `batch_size`
entries of the freshly reshuffled pool of the `N` graph indices — has
pairwise-distinct entries and size `min batch_size N`; and there is a
shuffler under which the same index appears in the batches of two
different steps. -/
theorem batch_sampling (shuffle : Nat → List Nat → List Nat) (N batch_size t : Nat)
    (hshuffle : ∀ s p, (shuffle s p).Perm p) :
    (batch_at shuffle N batch_size t).Nodup
    ∧ (batch_at shuffle N batch_size t).length = min batch_size N
    ∧ ∃ shuffle0 : Nat → List Nat → List Nat, (∀ s p, (shuffle0 s p).Perm p) ∧
        ∃ i t1 t2, t1 ≠ t2 ∧ i ∈ batch_at shuffle0 2 1 t1 ∧ i ∈ batch_at shuffle0 2 1 t2 := by
  have hperm := pool_at_perm shuffle N hshuffle t
  refine ⟨?_, ?_, ?_⟩
  · exact (List.take_sublist _ _).nodup (hperm.symm.nodup (List.nodup_range N))
  · rw [batch_at, List.length_take, hperm.length_eq, List.length_range]
  · exact ⟨fun _ p => p, fun _ p => List.Perm.refl p, 0, 0, 1, by decide, by decide, by decide⟩

/-- C9 witness: the identity shuffler on `N = 2` graphs with
`batch_size = 1` at step `0`. -/
theorem batch_sampling_witness :
    (batch_at (fun _ p => p) 2 1 0).Nodup
    ∧ (batch_at (fun _ p => p) 2 1 0).length = min 1 2
    ∧ ∃ shuffle0 : Nat → List Nat → List Nat, (∀ s p, (shuffle0 s p).Perm p) ∧
        ∃ i t1 t2, t1 ≠ t2 ∧ i ∈ batch_at shuffle0 2 1 t1 ∧ i ∈ batch_at shuffle0 2 1 t2 :=
  batch_sampling (fun _ p => p) 2 1 0 fun _ p => List.Perm.refl p

/-- C8 counterexample: the evaluation loop divides by the length of the
predicted edge *list*, not the cardinality of the predicted edge *set*.
With ground-truth edge `(0, 2)` and the model predicting the same edge
twice (raw edges `(0, 0)` shifted by `stat[0] = 2`), the predicted edge
set is identical to the ground-truth edge set, yet the reported pair is
`(1/2, 1)`, not `(1, 1)`. -/
theorem precision_duplicate_pred :
    (([((0 : Int), (0 : Int)), (0, 0)].map fun e => (e.1, e.2 + 2)).toFinset =
      (get_ordered_edges [((0 : Int), (2 : Int))] 0).toFinset)
    ∧ eval_metrics [((0 : Int), (0 : Int)), (0, 0)] [((0 : Int), (2 : Int))] 2 ≠ (1, 1) := by
  constructor
  · decide
  · have hval : eval_metrics [((0 : Int), (0 : Int)), (0, 0)] [((0 : Int), (2 : Int))] 2 =
        (((1 : Nat) : ℚ) / ((2 : Nat) : ℚ), ((1 : Nat) : ℚ) / ((1 : Nat) : ℚ)) := rfl
    rw [hval]
    intro hcontra
    rw [Prod.mk.injEq] at hcontra
    have h1 := hcontra.1
    norm_num at h1

/-- C8 (amended): the runner reports
`precision = |intersection| / len(pred_edges)` and
`recall = |intersection| / len(true_edges)` — the denominators are list
lengths, so `precision` matches `|intersection| / |predicted set|` only
when the predicted edge list has no duplicates.  In particular, when the
(shifted) predicted edge list is duplicate-free and its edge set is
identical to the nonempty ground-truth edge set,
`precision = recall = 1`. -/
theorem precision_recall_spec (pred_edges g_edges : List (Int × Int)) (n_left : Int)
    (hnodup : (pred_edges.map fun e => (e.1, e.2 + n_left)).Nodup)
    (htrue : (get_ordered_edges g_edges 0).Nodup)
    (hsets : (pred_edges.map fun e => (e.1, e.2 + n_left)).toFinset =
      (get_ordered_edges g_edges 0).toFinset)
    (hne : g_edges ≠ []) :
    eval_metrics pred_edges g_edges n_left = (1, 1) := by
  have hcommon : ((pred_edges.map fun e => (e.1, e.2 + n_left)).toFinset ∩
      (get_ordered_edges g_edges 0).toFinset) = (get_ordered_edges g_edges 0).toFinset := by
    rw [hsets, Finset.inter_self]
  have hcardP := List.toFinset_card_of_nodup hnodup
  have hcardT := List.toFinset_card_of_nodup htrue
  have hTlen : (get_ordered_edges g_edges 0).length = g_edges.length := by
    simp only [get_ordered_edges, List.length_insertionSort, List.length_map]
  have hT0 : (get_ordered_edges g_edges 0).length ≠ 0 := by
    rw [hTlen]
    intro hzero
    exact hne (List.length_eq_zero.mp hzero)
  have hPlen : (pred_edges.map fun e => (e.1, e.2 + n_left)).length =
      (get_ordered_edges g_edges 0).length := by
    rw [← hcardP, ← hcardT, hsets]
  simp only [eval_metrics, hcommon, hcardT, hPlen, Prod.mk.injEq]
  constructor
  · exact div_self (by exact_mod_cast hT0)
  · exact div_self (by exact_mod_cast hT0)

/-- C8 witness: the (duplicate-free) predicted raw edge `(0, 0)` shifted
by `stat[0] = 2` reproduces the ground-truth edge `(0, 2)` exactly, and
the runner reports `precision = recall = 1`. -/
theorem precision_recall_spec_witness :
    eval_metrics [((0 : Int), (0 : Int))] [((0 : Int), (2 : Int))] 2 = (1, 1) :=
  precision_recall_spec [((0 : Int), (0 : Int))] [((0 : Int), (2 : Int))] 2
    (by decide) (by decide) (by decide) (by decide)
